import Mathlib

/-!
Verification of the mini2-core decorator-driven routing layer.

The definitions below are a shallow embedding of the TypeScript sources:

* `src/utils/array-unify.ts`                 — `arrayUnify`
* `src/notations/controller/index.ts`        — `RouteRegistry.updateRoute`,
  `httpMethod` (the decorator merge), and `buildRouterFromController`
  (validation-stage construction, middleware chain assembly, and the
  handler-argument marshaling wrapper)
* `src/notations/controller/middlewares/validation.middleware.ts`
  (the five-parameter version shipped with the decorator pipeline)
* `src/notations/controller/middlewares/authenticated.middleware.ts`
* `src/notations/controller/middlewares/authorized.middleware.ts`

JavaScript object references are modelled by `Nat` identity tags: every
object allocated by a decorator application carries a distinct `id`, so
`Set`-based deduplication (which compares references) coincides with
decidable equality on the embedded values.  Request handlers and
validation classes are likewise referenced by numeric tags.
-/

set_option autoImplicit false

namespace Mini2Core

/-- Embedding of `arrayUnify` (src/utils/array-unify.ts):
`[...new Set([...array])]`, i.e. keep the first occurrence of every
element, preserving order (later duplicates of the head are filtered out
of the deduplicated tail). -/
def arrayUnify {α : Type} [DecidableEq α] : List α → List α
  | [] => []
  | a :: l => a :: (arrayUnify l).filter (fun b => b ≠ a)

theorem mem_arrayUnify {α : Type} [DecidableEq α] (x : α) (l : List α) :
    x ∈ arrayUnify l ↔ x ∈ l := by
  induction l with
  | nil => simp [arrayUnify]
  | cons a l ih =>
    simp only [arrayUnify, List.mem_cons, List.mem_filter, ih, decide_eq_true_eq]
    constructor
    · rintro (rfl | ⟨h, _⟩)
      · exact Or.inl rfl
      · exact Or.inr h
    · rintro (rfl | h)
      · exact Or.inl rfl
      · by_cases hx : x = a
        · exact Or.inl hx
        · exact Or.inr ⟨h, hx⟩

theorem nodup_arrayUnify {α : Type} [DecidableEq α] (l : List α) :
    (arrayUnify l).Nodup := by
  induction l with
  | nil => simp [arrayUnify]
  | cons a l ih =>
    simp only [arrayUnify, List.nodup_cons]
    refine ⟨fun hmem => ?_, List.Nodup.filter _ ih⟩
    simp only [List.mem_filter, decide_eq_true_eq] at hmem
    exact hmem.2 rfl

/-! ## Data model (src/notations/controller/rest.types.ts) -/

/-- The four validation slots handled by `validationMiddleware`; the other
parameter slots (`req`/`res`/`next`) never carry validation specs. -/
inductive Slot where
  | params
  | query
  | body
  | headers
deriving DecidableEq, Repr

/-- One entry of `otherHttpMiddlewares`: `{ handler, isPre, order }`.
`id` models the identity of the entry object allocated by the `middleware`
decorator; `handler` is the reference of the wrapped request handler. -/
structure MwEntry where
  id : Nat
  handler : Nat
  isPre : Bool
  order : Int
deriving DecidableEq, Repr

/-- One validation spec (`IValidation`): an optional validation class per
slot.  Classes are referenced by numeric tags; `id` models the identity of
the spec object.  The `logging` / `transformOptions` / `validatorOptions`
fields are configuration forwarded verbatim to the external
class-transformer / class-validator collaborators and play no role in any
claim, so they are not carried here. -/
structure IValidation where
  id : Nat
  params : Option Nat := none
  query : Option Nat := none
  body : Option Nat := none
  headers : Option Nat := none
deriving DecidableEq, Repr

/-- The validation class a spec declares for a given slot. -/
def IValidation.slotClass (v : IValidation) : Slot → Option Nat
  | .params => v.params
  | .query => v.query
  | .body => v.body
  | .headers => v.headers

/-- Values stored in the open-ended `extraData` map.  The `custom`
decorator merge distinguishes arrays (unioned), plain objects (shallow
spread) and everything else (last write wins); payloads are opaque numeric
tags.  (For an array/non-array kind clash the JavaScript spread would
throw; that degenerate pairing falls through to last-write-wins here and
is exercised by no claim.) -/
inductive ExtraVal where
  | arr (xs : List Int)
  | obj (fields : List (String × Int))
  | prim (v : Int)
deriving DecidableEq, Repr

/-- `extraData` is a `Map<string, any>`; modelled as an insertion-ordered
association list with unique keys. -/
abbrev ExtraData := List (String × ExtraVal)

/-- `Map.prototype.get`. -/
def mapGet (m : ExtraData) (k : String) : Option ExtraVal :=
  (m.find? (fun p => p.1 == k)).map (fun p => p.2)

/-- `Map.prototype.set`: replace the value in place when the key is
present, append otherwise. -/
def mapSet : ExtraData → String → ExtraVal → ExtraData
  | [], k, v => [(k, v)]
  | p :: m, k, v => if p.1 = k then (k, v) :: m else p :: mapSet m k v

/-- Shallow object spread `{...cur, ...new}`: keys of `cur` first (values
overridden by `new` where shared), then the keys only `new` has. -/
def objectSpread (cur newObj : List (String × Int)) : List (String × Int) :=
  (cur.map (fun p =>
    match newObj.find? (fun q => q.1 == p.1) with
    | some q => (p.1, q.2)
    | none => p))
  ++ newObj.filter (fun q => !(cur.any (fun p => p.1 == q.1)))

/-- Per-key conflict resolution of the `custom` decorator merge
(src/notations/controller/index.ts, `httpMethod`): arrays union via
`arrayUnify`, plain objects spread, anything else is replaced. -/
def mergeExtraVal (cur newV : ExtraVal) : ExtraVal :=
  match cur, newV with
  | .arr a, .arr b => .arr (arrayUnify (a ++ b))
  | .obj a, .obj b => .obj (objectSpread a b)
  | _, _ => newV

/-- The `extraData` merge loop of `httpMethod`: starting from the existing
map, walk the new map's keys; absent keys are inserted, present keys go
through `mergeExtraVal`. -/
def mergeExtraData (existing newM : ExtraData) : ExtraData :=
  newM.foldl (fun acc kv =>
    match mapGet acc kv.1 with
    | none => mapSet acc kv.1 kv.2
    | some cur => mapSet acc kv.1 (mergeExtraVal cur kv.2)) existing

/-- `RouteOptions`: the transient merge input accumulated in the
`keyOfRouteOptions` reflection metadata.  `none` models an absent
(undefined) field. -/
structure RouteOptions where
  method : Option String := none
  path : Option String := none
  validations : Option (List IValidation) := none
  permissions : Option (List String) := none
  authenticated : Option Bool := none
  otherHttpMiddlewares : Option (List MwEntry) := none
  name : Option String := none
  extraData : Option ExtraData := none
deriving DecidableEq, Repr

/-- The parameter-index map of a route: logical slot → positional argument
index of the handler. -/
structure ParamIndices where
  req : Option Nat := none
  res : Option Nat := none
  next : Option Nat := none
  body : Option Nat := none
  query : Option Nat := none
  params : Option Nat := none
  headers : Option Nat := none
deriving DecidableEq, Repr

/-- `RouteDefinition`: the durable per-method record held by the
`RouteRegistry`.  A freshly created route has empty collections and an
empty parameter-index map. -/
structure RouteDefinition where
  methodName : String
  method : Option String := none
  path : Option String := none
  name : Option String := none
  authenticated : Option Bool := none
  extraData : Option ExtraData := none
  validations : List IValidation := []
  permissions : List String := []
  otherHttpMiddlewares : List MwEntry := []
  parameterIndices : ParamIndices := {}
deriving DecidableEq, Repr

/-- The partial update passed to `RouteRegistry.updateRoute`
(`Omit<RouteDefinition, 'methodName'>` with every field optional). -/
structure RouteUpdate where
  method : Option String := none
  path : Option String := none
  name : Option String := none
  authenticated : Option Bool := none
  extraData : Option ExtraData := none
  validations : Option (List IValidation) := none
  permissions : Option (List String) := none
  otherHttpMiddlewares : Option (List MwEntry) := none
  parameterIndices : Option ParamIndices := none
deriving DecidableEq, Repr

/-- Spread-merge of two parameter-index maps,
`{...(route.parameterIndices ?? {}), ...updates.parameterIndices}`:
a slot supplied by the update wins, otherwise the existing entry stays. -/
def mergeParamIndices (old newIdx : ParamIndices) : ParamIndices :=
  { req := newIdx.req <|> old.req
    res := newIdx.res <|> old.res
    next := newIdx.next <|> old.next
    body := newIdx.body <|> old.body
    query := newIdx.query <|> old.query
    params := newIdx.params <|> old.params
    headers := newIdx.headers <|> old.headers }

namespace RouteRegistry

/-- `RouteRegistry.updateRoute` (src/notations/controller/index.ts,
lines 105-142), applied to the route found (or created) for the method:

* `validations`: when the update supplies a non-empty list, the new
  entries are concatenated after the existing ones (no deduplication);
* `permissions` / `otherHttpMiddlewares`: when the update supplies a
  non-empty list, the field becomes `Array.from(new Set([...old, ...new]))`,
  i.e. the first-occurrence deduplicated union;
* scalar fields are overwritten only when the update supplies them;
* `parameterIndices`, when supplied, is spread-merged slot-wise. -/
def updateRoute (route : RouteDefinition) (updates : RouteUpdate) :
    RouteDefinition :=
  { route with
    validations :=
      match updates.validations with
      | some l => if l = [] then route.validations else route.validations ++ l
      | none => route.validations
    permissions :=
      match updates.permissions with
      | some l =>
        if l = [] then route.permissions else arrayUnify (route.permissions ++ l)
      | none => route.permissions
    otherHttpMiddlewares :=
      match updates.otherHttpMiddlewares with
      | some l =>
        if l = [] then route.otherHttpMiddlewares
        else arrayUnify (route.otherHttpMiddlewares ++ l)
      | none => route.otherHttpMiddlewares
    method := match updates.method with
      | some v => some v
      | none => route.method
    path := match updates.path with
      | some v => some v
      | none => route.path
    name := match updates.name with
      | some v => some v
      | none => route.name
    authenticated := match updates.authenticated with
      | some v => some v
      | none => route.authenticated
    extraData := match updates.extraData with
      | some v => some v
      | none => route.extraData
    parameterIndices := match updates.parameterIndices with
      | some pi => mergeParamIndices route.parameterIndices pi
      | none => route.parameterIndices }

end RouteRegistry

/-! ## The `httpMethod` decorator merge (src/notations/controller/index.ts,
lines 205-294).  Every route-level decorator (`get`, `post`, `validate`,
`authenticated`, `authorized`, `middleware`, `custom`) is sugar for
`httpMethod` with a single-field `RouteOptions`. -/

/-- The pure core of one `httpMethod` application: given the new options
and the options currently stored in reflection metadata, produce the
merged options written back to metadata together with the partial update
handed to `RouteRegistry.updateRoute`. -/
def httpMethodMerge (newOptions existingOptions : RouteOptions) :
    RouteOptions × RouteUpdate :=
  let method := newOptions.method <|> existingOptions.method
  let path := newOptions.path <|> existingOptions.path
  let validations :=
    arrayUnify ((newOptions.validations.getD []) ++ (existingOptions.validations.getD []))
  let permissions :=
    arrayUnify ((newOptions.permissions.getD []) ++ (existingOptions.permissions.getD []))
  let authenticated := newOptions.authenticated <|> existingOptions.authenticated
  let otherHttpMiddlewares :=
    arrayUnify ((newOptions.otherHttpMiddlewares.getD [])
      ++ (existingOptions.otherHttpMiddlewares.getD []))
  let name := newOptions.name <|> existingOptions.name
  let extraData :=
    mergeExtraData (existingOptions.extraData.getD []) (newOptions.extraData.getD [])
  let mergedOptions : RouteOptions :=
    { method := method
      path := path
      validations := if validations = [] then none else some validations
      permissions := if permissions = [] then none else some permissions
      authenticated := authenticated
      otherHttpMiddlewares :=
        if otherHttpMiddlewares = [] then none else some otherHttpMiddlewares
      name := name
      extraData := if extraData = [] then none else some extraData }
  let updates : RouteUpdate :=
    { validations := if validations = [] then none else some validations
      permissions := if permissions = [] then none else some permissions
      otherHttpMiddlewares :=
        if otherHttpMiddlewares = [] then none else some otherHttpMiddlewares
      method := method
      path := path
      name := name
      authenticated := authenticated
      extraData := if extraData = [] then none else some extraData
      parameterIndices := none }
  (mergedOptions, updates)

/-- State of one controller method while decorators execute: the
reflection metadata entry and the registry's `RouteDefinition`. -/
structure MethodState where
  meta : RouteOptions
  route : RouteDefinition
deriving DecidableEq, Repr

/-- Before any decorator runs: metadata lookup yields `{}` and
`getOrCreateRoute` creates an empty route. -/
def initState (methodName : String) : MethodState :=
  { meta := {}, route := { methodName := methodName } }

/-- One `httpMethod` decorator application: merge against the stored
metadata, write the merged options back, and push the update into the
registry. -/
def httpMethodStep (st : MethodState) (newOptions : RouteOptions) : MethodState :=
  let merged := httpMethodMerge newOptions st.meta
  { meta := merged.1, route := RouteRegistry.updateRoute st.route merged.2 }

/-! ## Runtime request model -/

/-- The `user` object the authentication guard attaches to the request. -/
structure User where
  id : Option String := none
  permissions : List String := []
deriving DecidableEq, Repr

/-- The live request object.  `params`/`query`/`body` hold opaque data
tags; `headers` is the header map (lower-cased names, string values).
The `validated*` fields model the non-colliding result locations some
middleware versions write to; on a fresh request they are absent. -/
structure Request where
  params : Nat := 0
  query : Nat := 0
  body : Nat := 0
  headers : List (String × String) := []
  validatedBody : Option Nat := none
  validatedQuery : Option Nat := none
  validatedParams : Option Nat := none
  validatedHeaders : Option Nat := none
  authenticated : Bool := false
  user : Option User := none
deriving DecidableEq, Repr

/-- Raw value extracted from a request slot; the headers slot yields the
header map, the other slots their data tag. -/
inductive SourceVal where
  | plain (v : Nat)
  | headerMap (h : List (String × String))
deriving DecidableEq, Repr

/-- Slot extraction performed at the top of `validationMiddleware`. -/
def Request.sourceOf (r : Request) : Slot → SourceVal
  | .body => .plain r.body
  | .query => .plain r.query
  | .headers => .headerMap r.headers
  | .params => .plain r.params

/-- One record of the standardized validation-error list:
`{ property, constraints }`. -/
structure FieldError where
  property : String
  constraints : List String
deriving DecidableEq, Repr

/-- JSON body of an error response emitted by `validationMiddleware`. -/
structure RespBody where
  ok : Bool
  message : String
  errors : Option (List FieldError) := none
  error : Option String := none
deriving DecidableEq, Repr

/-- Outcome of running one middleware on a request: proceed to the next
stage (with the possibly mutated request), send a response directly, or
throw a typed `HttpException` (status code, message) for the boundary
error handler. -/
inductive MwOutcome where
  | proceed (r : Request)
  | respond (status : Nat) (body : RespBody)
  | threw (status : Nat) (message : String)
deriving DecidableEq, Repr

/-- `String(req.headers[name] ?? '')`: the header value, or the empty
string when the header is absent. -/
def getHeader (r : Request) (name : String) : String :=
  ((r.headers.find? (fun p => p.1 == name)).map (fun p => p.2)).getD ""

/-- JavaScript `s.split(',')`, over the character list of the string (an
empty string splits to one empty field, as in JavaScript). -/
def jsSplitComma (s : String) : List String :=
  (s.data.splitOn ',').map (fun cs => String.mk cs)

/-- JavaScript `s.trim()`: strip leading and trailing whitespace. -/
def jsTrim (s : String) : String :=
  String.mk (((s.data.dropWhile Char.isWhitespace).reverse.dropWhile
    Char.isWhitespace).reverse)

/-- JavaScript `s.toLowerCase()`. -/
def jsToLower (s : String) : String :=
  String.mk (s.data.map Char.toLower)

/-- Comma-separated permission-header parsing shared by both guards:
`.split(',').map(s => s.trim()).filter(Boolean)`. -/
def parsePermsHeader (s : String) : List String :=
  ((jsSplitComma s).map jsTrim).filter (fun t => t != "")

/-! ## Authentication guard
(src/notations/controller/middlewares/authenticated.middleware.ts) -/

/-- The guard's identity marker: `x-authenticated`, trimmed and
lower-cased, must be one of `true` / `1` / `yes` / `y`. -/
def isAuthHeaderSatisfied (r : Request) : Bool :=
  let isAuthHeader := jsToLower (jsTrim (getHeader r "x-authenticated"))
  isAuthHeader == "true" || isAuthHeader == "1"
    || isAuthHeader == "yes" || isAuthHeader == "y"

/-- `authenticatedMiddleware`: throw a 401 `UnauthorizedException` when
the marker is not satisfied; otherwise stamp `req.authenticated = true`,
attach `req.user` with the id and permissions parsed from the
`x-user-id` / `x-user-permissions` headers, and call `next()`. -/
def authenticatedMiddleware (r : Request) : MwOutcome :=
  if !isAuthHeaderSatisfied r then
    .threw 401 "Unauthorized"
  else
    let userId :=
      if getHeader r "x-user-id" == "" then none else some (getHeader r "x-user-id")
    let permissions := parsePermsHeader (getHeader r "x-user-permissions")
    .proceed { r with
      authenticated := true
      user := some { id := userId, permissions := permissions } }

/-! ## Authorization guard
(src/notations/controller/middlewares/authorized.middleware.ts) -/

/-- The request's current permission set:
`new Set([...(req.user?.permissions ?? []), ...fromHeader])`. -/
def currentPermissions (r : Request) : List String :=
  let fromReq := (r.user.map (fun u => u.permissions)).getD []
  let fromHeader := parsePermsHeader (getHeader r "x-user-permissions")
  arrayUnify (fromReq ++ fromHeader)

/-- `authorizedMiddleware(required)`: proceed when the required set is
empty or intersects the current set, otherwise throw a 403
`ForbiddenException`. -/
def authorizedMiddleware (required : List String) (r : Request) : MwOutcome :=
  let current := currentPermissions r
  let ok := required.isEmpty || required.any (fun perm => current.contains perm)
  if ok then .proceed r else .threw 403 "Forbidden"

/-! ## Validation middleware
(src/notations/controller/middlewares/validation.middleware.ts — the
five-parameter version imported by `buildRouterFromController`) -/

/-- The success-path write of `validationMiddleware`: the `headers` slot
gets its transformed instance stored in the non-enumerable
`req.validatedHeaders` property (keeping `req.headers` intact), while
`body` / `query` / `params` are overwritten in place via
`Object.defineProperty(req, type, { value: instance, ... })`. -/
def writeValidated (r : Request) (t : Slot) (inst : Nat) : Request :=
  match t with
  | .headers => { r with validatedHeaders := some inst }
  | .body => { r with body := inst }
  | .query => { r with query := inst }
  | .params => { r with params := inst }

/-- The external transform-and-validate capability
(class-transformer's `plainToInstance` followed by class-validator's
`validate`): given a validation class tag and the raw slot value it
either crashes with a message (the whole `try` body is wrapped) or
yields the transformed instance tag plus the field-error list. -/
abbrev ValidationAdapter := Nat → SourceVal → Except String (Nat × List FieldError)

/-- One run of `validationMiddleware(ValidationClass, type, ...)`:
extract the slot source, transform and validate; a non-empty error list
yields `res.status(400).json({ok:false, message:'Validation error',
errors})` without calling `next`; success writes the instance and
proceeds; a crash of the adapter itself yields
`res.status(400).json({ok:false, message:'Validation middleware failed',
error})`. -/
def validationMiddlewareRun (adapter : ValidationAdapter) (classId : Nat)
    (t : Slot) (r : Request) : MwOutcome :=
  match adapter classId (r.sourceOf t) with
  | .error msg =>
    .respond 400 { ok := false, message := "Validation middleware failed", error := some msg }
  | .ok (inst, errs) =>
    if errs = [] then
      .proceed (writeValidated r t inst)
    else
      .respond 400 { ok := false, message := "Validation error", errors := some errs }

/-! ## Route compilation (`buildRouterFromController`,
src/notations/controller/index.ts lines 381-510) -/

/-- One element of the compiled middleware chain of a route. -/
inductive ChainItem where
  | validationStep (specId : Nat) (classId : Nat) (slot : Slot)
  | customMw (handler : Nat)
  | authGuard
  | authzGuard (permissions : List String)
  | handlerWrapper
deriving DecidableEq, Repr

/-- The fixed slot iteration order of the validation-stage loop:
`['params', 'query', 'body', 'headers']`. -/
def slotOrder : List Slot := [.params, .query, .body, .headers]

/-- The validation stage: for every validation spec (outer loop), walk
the slots in `slotOrder` (inner loop) and push a validation step for each
slot the spec declares.  The source wraps each push in a `pushOnce`
helper that tests `arr.includes(mw)`; `validationMiddleware` allocates a
fresh handler closure on every call, so that reference-equality test is
never true and every generated step is pushed unconditionally. -/
def buildValidationSteps (validations : List IValidation) : List ChainItem :=
  validations.foldl (fun arr v =>
    slotOrder.foldl (fun arr t =>
      match v.slotClass t with
      | none => arr
      | some c => arr ++ [ChainItem.validationStep v.id c t]) arr) []

/-- Insert an entry into an already sorted list, after every entry whose
order number is less than or equal to its own: together with the fold in
`sortByOrder` this reproduces the stable ascending
`sort((x, y) => x.order - y.order)` of the source. -/
def insertByOrder (a : MwEntry) : List MwEntry → List MwEntry
  | [] => [a]
  | b :: l => if a.order < b.order then a :: b :: l else b :: insertByOrder a l

/-- Stable ascending sort by the `order` field. -/
def sortByOrder (l : List MwEntry) : List MwEntry :=
  l.foldl (fun acc a => insertByOrder a acc) []

/-- Middleware-chain assembly for one route (lines 437-454 plus the final
registration): pre-flagged auxiliary middleware sorted by order number,
then the validation stage, then the authentication guard when
`authenticated` is truthy, then the authorization guard when the
permission set is non-empty, then the remaining auxiliary middleware in
declaration order, then the handler invocation wrapper. -/
def buildChain (ro : RouteOptions) : List ChainItem :=
  let validationMiddlewares := buildValidationSteps (ro.validations.getD [])
  let isPreMiddlewaresSorted :=
    sortByOrder ((ro.otherHttpMiddlewares.getD []).filter (fun item => item.isPre))
  let middlewares := isPreMiddlewaresSorted.map (fun item => ChainItem.customMw item.handler)
  let middlewares := middlewares ++ validationMiddlewares
  let middlewares := middlewares ++
    (if ro.authenticated.getD false then [ChainItem.authGuard] else [])
  let middlewares := middlewares ++
    (if (ro.permissions.getD []).isEmpty then []
     else [ChainItem.authzGuard (ro.permissions.getD [])])
  let middlewares := middlewares ++
    ((ro.otherHttpMiddlewares.getD []).filter (fun item => !item.isPre)).map
      (fun item => ChainItem.customMw item.handler)
  middlewares ++ [ChainItem.handlerWrapper]

/-! ## Handler-argument marshaling (`handlerMiddleware`, lines 459-500).
The wrapper reads the reflection metadata for the `req`/`res`/`next`/
`body`/`query`/`params` keys only; `keyOfHeaders` is never consulted. -/

/-- One positional argument of the handler call. -/
inductive Arg where
  | undef
  | reqObj
  | resObj
  | nextObj
  | value (v : Nat)
deriving DecidableEq, Repr

/-- The `argMap : Map<number, any>` of the wrapper. -/
abbrev ArgMap := List (Nat × Arg)

/-- `Map.prototype.set` on the argument map. -/
def argMapSet : ArgMap → Nat → Arg → ArgMap
  | [], k, v => [(k, v)]
  | p :: m, k, v => if p.1 = k then (k, v) :: m else p :: argMapSet m k v

/-- `Map.prototype.get` on the argument map: the value of the (unique)
entry with the given key. -/
def argMapGet : ArgMap → Nat → Option Arg
  | [], _ => none
  | p :: m, k => if p.1 = k then some p.2 else argMapGet m k

/-- `if (typeof index === 'number') argMap.set(index, v)`. -/
def argMapSetIf (m : ArgMap) (idx : Option Nat) (v : Arg) : ArgMap :=
  match idx with
  | some i => argMapSet m i v
  | none => m

/-- `Math.max(...Array.from(argMap.keys()))` (over a non-empty map). -/
def argMapMaxKey (m : ArgMap) : Nat :=
  (m.map (fun p => p.1)).foldl max 0

/-- The wrapper's argument-array construction: populate the map with the
live `req`/`res`/`next` objects and the validated-or-raw `body`/`query`/
`params` values at their declared indices (`(req.validatedBody ?? req.body)`
and so on), then lay the map out positionally up to the maximum declared
index, defaulting to the classic three-argument call when no slot was
declared.  The `headers` entry of the index map is deliberately ignored,
mirroring the source. -/
def buildArgs (idx : ParamIndices) (r : Request) : List Arg :=
  let m : ArgMap := []
  let m := argMapSetIf m idx.req .reqObj
  let m := argMapSetIf m idx.res .resObj
  let m := argMapSetIf m idx.next .nextObj
  let m := argMapSetIf m idx.body (.value (r.validatedBody.getD r.body))
  let m := argMapSetIf m idx.query (.value (r.validatedQuery.getD r.query))
  let m := argMapSetIf m idx.params (.value (r.validatedParams.getD r.params))
  if m.length > 0 then
    (List.range (argMapMaxKey m + 1)).map (fun i => (argMapGet m i).getD .undef)
  else
    [.reqObj, .resObj, .nextObj]

/-! ## Chain execution -/

/-- External behaviors a compiled chain depends on: the body of every
custom middleware and the transform-and-validate capability. -/
structure Env where
  custom : Nat → Request → MwOutcome
  adapter : ValidationAdapter

/-- Outcome of one chain element at dispatch time. -/
def runItem (env : Env) (item : ChainItem) (r : Request) : MwOutcome :=
  match item with
  | .validationStep _ c t => validationMiddlewareRun env.adapter c t r
  | .customMw h => env.custom h r
  | .authGuard => authenticatedMiddleware r
  | .authzGuard perms => authorizedMiddleware perms r
  | .handlerWrapper => .proceed r

/-- Result of running a chain on a request. -/
inductive ChainResult where
  | handled (status : Nat) (body : RespBody)
  | errored (status : Nat) (message : String)
  | reachedHandler (r : Request)
  | fellOff (r : Request)
deriving DecidableEq, Repr

/-- Run a compiled middleware chain: the handler wrapper terminates the
walk (the request has reached the route handler); earlier stages may
proceed, respond or throw.  `fellOff` covers the impossible empty chain. -/
def runChain (env : Env) : List ChainItem → Request → ChainResult
  | [], r => .fellOff r
  | ChainItem.handlerWrapper :: _, r => .reachedHandler r
  | item :: rest, r =>
    match runItem env item r with
    | .proceed r2 => runChain env rest r2
    | .respond s b => .handled s b
    | .threw s m => .errored s m

/-! ## Projection lemmas -/

theorem updateRoute_validations (r : RouteDefinition) (u : RouteUpdate) :
    (RouteRegistry.updateRoute r u).validations =
      match u.validations with
      | some l => if l = [] then r.validations else r.validations ++ l
      | none => r.validations := rfl

theorem updateRoute_permissions (r : RouteDefinition) (u : RouteUpdate) :
    (RouteRegistry.updateRoute r u).permissions =
      match u.permissions with
      | some l => if l = [] then r.permissions else arrayUnify (r.permissions ++ l)
      | none => r.permissions := rfl

theorem updateRoute_otherHttpMiddlewares (r : RouteDefinition) (u : RouteUpdate) :
    (RouteRegistry.updateRoute r u).otherHttpMiddlewares =
      match u.otherHttpMiddlewares with
      | some l =>
        if l = [] then r.otherHttpMiddlewares else arrayUnify (r.otherHttpMiddlewares ++ l)
      | none => r.otherHttpMiddlewares := rfl

theorem httpMethodMerge_updates_permissions (o e : RouteOptions) :
    (httpMethodMerge o e).2.permissions =
      (if arrayUnify (o.permissions.getD [] ++ e.permissions.getD []) = [] then none
       else some (arrayUnify (o.permissions.getD [] ++ e.permissions.getD []))) := rfl

theorem httpMethodMerge_meta_permissions (o e : RouteOptions) :
    (httpMethodMerge o e).1.permissions =
      (if arrayUnify (o.permissions.getD [] ++ e.permissions.getD []) = [] then none
       else some (arrayUnify (o.permissions.getD [] ++ e.permissions.getD []))) := rfl

theorem httpMethodMerge_updates_mw (o e : RouteOptions) :
    (httpMethodMerge o e).2.otherHttpMiddlewares =
      (if arrayUnify (o.otherHttpMiddlewares.getD [] ++ e.otherHttpMiddlewares.getD []) = []
       then none
       else some (arrayUnify (o.otherHttpMiddlewares.getD []
         ++ e.otherHttpMiddlewares.getD []))) := rfl

theorem httpMethodMerge_meta_mw (o e : RouteOptions) :
    (httpMethodMerge o e).1.otherHttpMiddlewares =
      (if arrayUnify (o.otherHttpMiddlewares.getD [] ++ e.otherHttpMiddlewares.getD []) = []
       then none
       else some (arrayUnify (o.otherHttpMiddlewares.getD []
         ++ e.otherHttpMiddlewares.getD []))) := rfl

/-- Membership in the optional collection produced by the merge: the
`[]`-becomes-`none` normalization does not change membership. -/
theorem mem_ifEmpty_getD {α : Type} [DecidableEq α] (l : List α) (x : α) :
    x ∈ (if l = [] then (none : Option (List α)) else some l).getD [] ↔ x ∈ l := by
  split
  · simp_all
  · simp

/-! ## C2: `RouteRegistry.updateRoute` merge behavior -/

def c2dupSpec : IValidation := { id := 0, body := some 1 }

def c2route : RouteDefinition := { methodName := "m", validations := [c2dupSpec] }

def c2update : RouteUpdate := { validations := some [c2dupSpec] }

/-- C2 counterexample: contrary to the claim, the `validations` field is
not a deduplicated union — `updateRoute` concatenates the supplied list
onto the existing one, so re-supplying an entry that is already present
duplicates it. -/
theorem c2_counterexample :
    (RouteRegistry.updateRoute c2route c2update).validations = [c2dupSpec, c2dupSpec]
    ∧ ¬ (RouteRegistry.updateRoute c2route c2update).validations.Nodup := by
  decide

/-- C2 (amended): `updateRoute` merges a partial update so that
`validations` becomes the concatenation of old and new entries
(duplicates retained) when the update supplies a non-empty list,
`permissions` and `otherHttpMiddlewares` become the first-occurrence
deduplicated union of old and new when the update supplies a non-empty
list, every collection is left unchanged when the update supplies an
empty or absent list, and each scalar field (`method`, `path`, `name`,
`authenticated`, `extraData`) is overwritten exactly when the update
supplies it. -/
theorem c2_update_merge (route : RouteDefinition) (u : RouteUpdate) :
    (∀ l, u.validations = some l → l ≠ [] →
      (RouteRegistry.updateRoute route u).validations = route.validations ++ l)
    ∧ ((u.validations = none ∨ u.validations = some []) →
      (RouteRegistry.updateRoute route u).validations = route.validations)
    ∧ (∀ l, u.permissions = some l → l ≠ [] →
      ((∀ x, x ∈ (RouteRegistry.updateRoute route u).permissions ↔
          x ∈ route.permissions ∨ x ∈ l)
        ∧ (RouteRegistry.updateRoute route u).permissions.Nodup))
    ∧ ((u.permissions = none ∨ u.permissions = some []) →
      (RouteRegistry.updateRoute route u).permissions = route.permissions)
    ∧ (∀ l, u.otherHttpMiddlewares = some l → l ≠ [] →
      ((∀ x, x ∈ (RouteRegistry.updateRoute route u).otherHttpMiddlewares ↔
          x ∈ route.otherHttpMiddlewares ∨ x ∈ l)
        ∧ (RouteRegistry.updateRoute route u).otherHttpMiddlewares.Nodup))
    ∧ ((u.otherHttpMiddlewares = none ∨ u.otherHttpMiddlewares = some []) →
      (RouteRegistry.updateRoute route u).otherHttpMiddlewares
        = route.otherHttpMiddlewares)
    ∧ (∀ v, u.method = some v → (RouteRegistry.updateRoute route u).method = some v)
    ∧ (u.method = none → (RouteRegistry.updateRoute route u).method = route.method)
    ∧ (∀ v, u.path = some v → (RouteRegistry.updateRoute route u).path = some v)
    ∧ (u.path = none → (RouteRegistry.updateRoute route u).path = route.path)
    ∧ (∀ v, u.name = some v → (RouteRegistry.updateRoute route u).name = some v)
    ∧ (u.name = none → (RouteRegistry.updateRoute route u).name = route.name)
    ∧ (∀ v, u.authenticated = some v →
      (RouteRegistry.updateRoute route u).authenticated = some v)
    ∧ (u.authenticated = none →
      (RouteRegistry.updateRoute route u).authenticated = route.authenticated)
    ∧ (∀ v, u.extraData = some v → (RouteRegistry.updateRoute route u).extraData = some v)
    ∧ (u.extraData = none →
      (RouteRegistry.updateRoute route u).extraData = route.extraData) := by
  refine ⟨?_, ?_, ?_, ?_, ?_, ?_, ?_, ?_, ?_, ?_, ?_, ?_, ?_, ?_, ?_, ?_⟩
  · intro l hl hne
    simp [RouteRegistry.updateRoute, hl, hne]
  · rintro (h | h) <;> simp [RouteRegistry.updateRoute, h]
  · intro l hl hne
    constructor
    · intro x
      simp [RouteRegistry.updateRoute, hl, hne, mem_arrayUnify]
    · simp [RouteRegistry.updateRoute, hl, hne, nodup_arrayUnify]
  · rintro (h | h) <;> simp [RouteRegistry.updateRoute, h]
  · intro l hl hne
    constructor
    · intro x
      simp [RouteRegistry.updateRoute, hl, hne, mem_arrayUnify]
    · simp [RouteRegistry.updateRoute, hl, hne, nodup_arrayUnify]
  · rintro (h | h) <;> simp [RouteRegistry.updateRoute, h]
  · intro v hv
    simp [RouteRegistry.updateRoute, hv]
  · intro hv
    simp [RouteRegistry.updateRoute, hv]
  · intro v hv
    simp [RouteRegistry.updateRoute, hv]
  · intro hv
    simp [RouteRegistry.updateRoute, hv]
  · intro v hv
    simp [RouteRegistry.updateRoute, hv]
  · intro hv
    simp [RouteRegistry.updateRoute, hv]
  · intro v hv
    simp [RouteRegistry.updateRoute, hv]
  · intro hv
    simp [RouteRegistry.updateRoute, hv]
  · intro v hv
    simp [RouteRegistry.updateRoute, hv]
  · intro hv
    simp [RouteRegistry.updateRoute, hv]

def c2wRoute : RouteDefinition := { methodName := "m", permissions := ["a"] }

def c2wUpdate : RouteUpdate := { permissions := some ["a", "b"], method := some "get" }

/-- C2 witness: the amended merge rules evaluated on a concrete route and
update. -/
theorem c2_update_merge_witness :
    "b" ∈ (RouteRegistry.updateRoute c2wRoute c2wUpdate).permissions
    ∧ (RouteRegistry.updateRoute c2wRoute c2wUpdate).permissions.Nodup
    ∧ (RouteRegistry.updateRoute c2wRoute c2wUpdate).method = some "get"
    ∧ (RouteRegistry.updateRoute c2wRoute c2wUpdate).validations
      = c2wRoute.validations := by
  obtain ⟨hv1, hv2, hp1, hp2, hmw1, hmw2, hme1, hme2, hpa1, hpa2, hn1, hn2,
    hau1, hau2, hed1, hed2⟩ := c2_update_merge c2wRoute c2wUpdate
  refine ⟨?_, ?_, ?_, ?_⟩
  · exact ((hp1 ["a", "b"] rfl (by decide)).1 "b").mpr (Or.inr (by decide))
  · exact (hp1 ["a", "b"] rfl (by decide)).2
  · exact hme1 "get" rfl
  · exact hv2 (Or.inl rfl)

/-! ## C3: order-independence of decorator accumulation -/

/-- One `httpMethod` application adds exactly the supplied permissions and
middleware entries to the registry route (up to set membership), and keeps
the reflection metadata and the registry route in sync. -/
theorem httpMethodStep_mem (st : MethodState) (o : RouteOptions)
    (hsyncP : ∀ x, x ∈ st.meta.permissions.getD [] ↔ x ∈ st.route.permissions)
    (hsyncM : ∀ x, x ∈ st.meta.otherHttpMiddlewares.getD []
      ↔ x ∈ st.route.otherHttpMiddlewares) :
    (∀ x, x ∈ (httpMethodStep st o).route.permissions ↔
      x ∈ st.route.permissions ∨ x ∈ o.permissions.getD [])
    ∧ (∀ x, x ∈ (httpMethodStep st o).meta.permissions.getD [] ↔
      x ∈ (httpMethodStep st o).route.permissions)
    ∧ (∀ x, x ∈ (httpMethodStep st o).route.otherHttpMiddlewares ↔
      x ∈ st.route.otherHttpMiddlewares ∨ x ∈ o.otherHttpMiddlewares.getD [])
    ∧ (∀ x, x ∈ (httpMethodStep st o).meta.otherHttpMiddlewares.getD [] ↔
      x ∈ (httpMethodStep st o).route.otherHttpMiddlewares) := by
  have hroute : (httpMethodStep st o).route
      = RouteRegistry.updateRoute st.route (httpMethodMerge o st.meta).2 := rfl
  have hmeta : (httpMethodStep st o).meta = (httpMethodMerge o st.meta).1 := rfl
  have hmergedP : ∀ x,
      x ∈ arrayUnify (o.permissions.getD [] ++ st.meta.permissions.getD []) ↔
        x ∈ o.permissions.getD [] ∨ x ∈ st.route.permissions := by
    intro x
    rw [mem_arrayUnify, List.mem_append, hsyncP x]
  have hmergedM : ∀ x,
      x ∈ arrayUnify (o.otherHttpMiddlewares.getD []
          ++ st.meta.otherHttpMiddlewares.getD []) ↔
        x ∈ o.otherHttpMiddlewares.getD [] ∨ x ∈ st.route.otherHttpMiddlewares := by
    intro x
    rw [mem_arrayUnify, List.mem_append, hsyncM x]
  have hrP : ∀ x, x ∈ (httpMethodStep st o).route.permissions ↔
      x ∈ st.route.permissions ∨ x ∈ o.permissions.getD [] := by
    intro x
    rw [hroute, updateRoute_permissions, httpMethodMerge_updates_permissions]
    by_cases hemp : arrayUnify (o.permissions.getD [] ++ st.meta.permissions.getD []) = []
    · simp only [hemp, if_pos rfl]
      have := (hmergedP x).symm
      rw [hemp] at this
      simp only [List.not_mem_nil, iff_false] at this
      push_neg at this
      simp [this.1]
    · simp only [if_neg hemp]
      rw [mem_arrayUnify, List.mem_append, hmergedP x]
      tauto
  have hrM : ∀ x, x ∈ (httpMethodStep st o).route.otherHttpMiddlewares ↔
      x ∈ st.route.otherHttpMiddlewares ∨ x ∈ o.otherHttpMiddlewares.getD [] := by
    intro x
    rw [hroute, updateRoute_otherHttpMiddlewares, httpMethodMerge_updates_mw]
    by_cases hemp : arrayUnify (o.otherHttpMiddlewares.getD []
        ++ st.meta.otherHttpMiddlewares.getD []) = []
    · simp only [hemp, if_pos rfl]
      have := (hmergedM x).symm
      rw [hemp] at this
      simp only [List.not_mem_nil, iff_false] at this
      push_neg at this
      simp [this.1]
    · simp only [if_neg hemp]
      rw [mem_arrayUnify, List.mem_append, hmergedM x]
      tauto
  refine ⟨hrP, ?_, hrM, ?_⟩
  · intro x
    rw [hmeta, httpMethodMerge_meta_permissions, mem_ifEmpty_getD, hmergedP x, hrP x]
    tauto
  · intro x
    rw [hmeta, httpMethodMerge_meta_mw, mem_ifEmpty_getD, hmergedM x, hrM x]
    tauto

/-- Folding a list of decorator applications accumulates exactly the union
of all supplied permissions and middleware entries. -/
theorem foldl_httpMethodStep_mem (apps : List RouteOptions) (st : MethodState)
    (hsyncP : ∀ x, x ∈ st.meta.permissions.getD [] ↔ x ∈ st.route.permissions)
    (hsyncM : ∀ x, x ∈ st.meta.otherHttpMiddlewares.getD []
      ↔ x ∈ st.route.otherHttpMiddlewares) :
    (∀ x, x ∈ (apps.foldl httpMethodStep st).route.permissions ↔
      x ∈ st.route.permissions ∨ ∃ o ∈ apps, x ∈ o.permissions.getD [])
    ∧ (∀ x, x ∈ (apps.foldl httpMethodStep st).route.otherHttpMiddlewares ↔
      x ∈ st.route.otherHttpMiddlewares ∨ ∃ o ∈ apps, x ∈ o.otherHttpMiddlewares.getD []) := by
  induction apps generalizing st with
  | nil => simp
  | cons o apps ih =>
    obtain ⟨h1, h2, h3, h4⟩ := httpMethodStep_mem st o hsyncP hsyncM
    obtain ⟨ih1, ih2⟩ := ih (httpMethodStep st o) h2 h4
    constructor
    · intro x
      rw [List.foldl_cons, ih1 x, h1 x]
      simp only [List.mem_cons]
      constructor
      · rintro ((hx | hx) | ⟨o2, ho2, hx⟩)
        · exact Or.inl hx
        · exact Or.inr ⟨o, Or.inl rfl, hx⟩
        · exact Or.inr ⟨o2, Or.inr ho2, hx⟩
      · rintro (hx | ⟨o2, (rfl | ho2), hx⟩)
        · exact Or.inl (Or.inl hx)
        · exact Or.inl (Or.inr hx)
        · exact Or.inr ⟨o2, ho2, hx⟩
    · intro x
      rw [List.foldl_cons, ih2 x, h3 x]
      simp only [List.mem_cons]
      constructor
      · rintro ((hx | hx) | ⟨o2, ho2, hx⟩)
        · exact Or.inl hx
        · exact Or.inr ⟨o, Or.inl rfl, hx⟩
        · exact Or.inr ⟨o2, Or.inr ho2, hx⟩
      · rintro (hx | ⟨o2, (rfl | ho2), hx⟩)
        · exact Or.inl (Or.inl hx)
        · exact Or.inl (Or.inr hx)
        · exact Or.inr ⟨o2, ho2, hx⟩

/-- C3: for any finite sequence of `httpMethod` decorator applications to
one method, the accumulated route's permission set and middleware set are,
as sets, exactly the union of all individually supplied values, and are
therefore invariant (as sets) under any reordering of the applications. -/
theorem c3_decorator_union (methodName : String) (apps : List RouteOptions) :
    (∀ p, p ∈ (apps.foldl httpMethodStep (initState methodName)).route.permissions ↔
      ∃ o ∈ apps, p ∈ o.permissions.getD [])
    ∧ (∀ m, m ∈ (apps.foldl httpMethodStep (initState methodName)).route.otherHttpMiddlewares ↔
      ∃ o ∈ apps, m ∈ o.otherHttpMiddlewares.getD [])
    ∧ (∀ apps2, List.Perm apps apps2 →
      (∀ p, p ∈ (apps.foldl httpMethodStep (initState methodName)).route.permissions ↔
        p ∈ (apps2.foldl httpMethodStep (initState methodName)).route.permissions)
      ∧ (∀ m, m ∈ (apps.foldl httpMethodStep (initState methodName)).route.otherHttpMiddlewares ↔
        m ∈ (apps2.foldl httpMethodStep (initState methodName)).route.otherHttpMiddlewares)) := by
  have hbase := foldl_httpMethodStep_mem apps (initState methodName)
    (by intro x; simp [initState]) (by intro x; simp [initState])
  have h1 : ∀ p, p ∈ (apps.foldl httpMethodStep (initState methodName)).route.permissions ↔
      ∃ o ∈ apps, p ∈ o.permissions.getD [] := by
    intro p
    rw [hbase.1 p]
    simp [initState]
  have h2 : ∀ m,
      m ∈ (apps.foldl httpMethodStep (initState methodName)).route.otherHttpMiddlewares ↔
      ∃ o ∈ apps, m ∈ o.otherHttpMiddlewares.getD [] := by
    intro m
    rw [hbase.2 m]
    simp [initState]
  refine ⟨h1, h2, ?_⟩
  intro apps2 hperm
  have hbase2 := foldl_httpMethodStep_mem apps2 (initState methodName)
    (by intro x; simp [initState]) (by intro x; simp [initState])
  constructor
  · intro p
    rw [h1 p, hbase2.1 p]
    simp only [initState, List.not_mem_nil, false_or]
    constructor
    · rintro ⟨o, ho, hp⟩
      exact ⟨o, hperm.mem_iff.mp ho, hp⟩
    · rintro ⟨o, ho, hp⟩
      exact ⟨o, hperm.mem_iff.mpr ho, hp⟩
  · intro m
    rw [h2 m, hbase2.2 m]
    simp only [initState, List.not_mem_nil, false_or]
    constructor
    · rintro ⟨o, ho, hm⟩
      exact ⟨o, hperm.mem_iff.mp ho, hm⟩
    · rintro ⟨o, ho, hm⟩
      exact ⟨o, hperm.mem_iff.mpr ho, hm⟩

def c3opt1 : RouteOptions := { permissions := some ["a", "b"] }

def c3opt2 : RouteOptions := { permissions := some ["b", "c"] }

/-- C3 witness: the union property and the permutation-invariance applied
to two concrete decorator applications. -/
theorem c3_decorator_union_witness :
    "c" ∈ ([c3opt1, c3opt2].foldl httpMethodStep (initState "m")).route.permissions
    ∧ ("a" ∈ ([c3opt2, c3opt1].foldl httpMethodStep (initState "m")).route.permissions) := by
  obtain ⟨h1, h2, h3⟩ := c3_decorator_union "m" [c3opt1, c3opt2]
  refine ⟨(h1 "c").mpr ⟨c3opt2, by decide, by decide⟩, ?_⟩
  have hswap : List.Perm [c3opt1, c3opt2] [c3opt2, c3opt1] := by decide
  exact ((h3 [c3opt2, c3opt1] hswap).1 "a").mp
    ((h1 "a").mpr ⟨c3opt1, by decide, by decide⟩)

/-! ## C5: the validation stage of a compiled route -/

/-- The steps contributed by a single validation spec: one per declared
slot, in the fixed slot iteration order. -/
def specSteps (v : IValidation) : List ChainItem :=
  slotOrder.filterMap (fun t =>
    (v.slotClass t).map (fun c => ChainItem.validationStep v.id c t))

theorem foldl_slot_append (v : IValidation) (ts : List Slot) (arr : List ChainItem) :
    ts.foldl (fun arr t =>
      match v.slotClass t with
      | none => arr
      | some c => arr ++ [ChainItem.validationStep v.id c t]) arr
    = arr ++ ts.filterMap (fun t =>
        (v.slotClass t).map (fun c => ChainItem.validationStep v.id c t)) := by
  induction ts generalizing arr with
  | nil => simp
  | cons t ts ih =>
    cases h : v.slotClass t <;> simp [h, ih]

theorem buildValidationSteps_foldl (vs : List IValidation) (arr : List ChainItem) :
    vs.foldl (fun arr v =>
      slotOrder.foldl (fun arr t =>
        match v.slotClass t with
        | none => arr
        | some c => arr ++ [ChainItem.validationStep v.id c t]) arr) arr
    = arr ++ vs.flatMap specSteps := by
  induction vs generalizing arr with
  | nil => simp
  | cons v vs ih =>
    rw [List.foldl_cons, foldl_slot_append, ih, List.flatMap_cons, ← List.append_assoc]
    rfl

theorem buildValidationSteps_cons (v : IValidation) (vs : List IValidation) :
    buildValidationSteps (v :: vs) = specSteps v ++ buildValidationSteps vs := by
  have h1 : buildValidationSteps (v :: vs) = [] ++ (v :: vs).flatMap specSteps :=
    buildValidationSteps_foldl (v :: vs) []
  have h2 : buildValidationSteps vs = [] ++ vs.flatMap specSteps :=
    buildValidationSteps_foldl vs []
  rw [h1, h2, List.flatMap_cons]
  simp

/-- The class of a chain element, when it is a validation step for the
given slot. -/
def stepClassAt (t : Slot) : ChainItem → Option Nat
  | .validationStep _ c t2 => if t2 = t then some c else none
  | _ => none

theorem specSteps_filterMap (v : IValidation) (t : Slot) :
    (specSteps v).filterMap (stepClassAt t) = (v.slotClass t).toList := by
  rcases v with ⟨i, p, q, b, h⟩
  cases t <;> cases p <;> cases q <;> cases b <;> cases h <;>
    simp [specSteps, slotOrder, IValidation.slotClass, stepClassAt]

def c5specA : IValidation := { id := 0, body := some 1 }

def c5specB : IValidation := { id := 1, body := some 2 }

/-- C5 counterexample: two validation specs of the same route both
referencing the `body` slot produce two distinct body-validation steps —
the `pushOnce` dedup never fires because every `validationMiddleware`
call allocates a fresh closure, so the claimed at-most-one-step-per-slot
property fails. -/
theorem c5_counterexample :
    buildValidationSteps [c5specA, c5specB]
      = [ChainItem.validationStep 0 1 Slot.body, ChainItem.validationStep 1 2 Slot.body]
    ∧ ((buildValidationSteps [c5specA, c5specB]).filterMap (stepClassAt Slot.body)).length
      = 2 := by
  decide

/-- C5 (amended): the validation stage contains one step per (spec, slot)
pair — no per-slot deduplication across specs.  Specs are walked in
declaration order, each spec contributing steps for its declared slots in
the fixed precedence order `params`, `query`, `body`, `headers`; for
every slot, the classes of the emitted steps for that slot are exactly
the classes the successive specs declare for it, in spec order. -/
theorem c5_validation_stage (vs : List IValidation) :
    buildValidationSteps vs = vs.flatMap specSteps
    ∧ (∀ t : Slot, (buildValidationSteps vs).filterMap (stepClassAt t)
        = vs.filterMap (fun v => v.slotClass t)) := by
  constructor
  · exact buildValidationSteps_foldl vs []
  · intro t
    induction vs with
    | nil => rfl
    | cons v vs ih =>
      rw [buildValidationSteps_cons, List.filterMap_append, specSteps_filterMap, ih]
      cases h : v.slotClass t <;> simp [List.filterMap_cons, h]

/-! ## Stable ascending sort of the pre-flagged middleware -/

theorem insertByOrder_perm (a : MwEntry) (l : List MwEntry) :
    List.Perm (insertByOrder a l) (a :: l) := by
  induction l with
  | nil => rfl
  | cons b l ih =>
    rw [insertByOrder]
    split
    · rfl
    · exact List.Perm.trans (ih.cons b) (List.Perm.swap a b l)

theorem sortByOrder_foldl_perm (l acc : List MwEntry) :
    List.Perm (l.foldl (fun acc a => insertByOrder a acc) acc) (acc ++ l) := by
  induction l generalizing acc with
  | nil => simp
  | cons a l ih =>
    rw [List.foldl_cons]
    refine List.Perm.trans (ih (insertByOrder a acc)) ?_
    refine List.Perm.trans (List.Perm.append_right l ((insertByOrder_perm a acc))) ?_
    exact (List.perm_middle).symm

theorem sortByOrder_perm (l : List MwEntry) : List.Perm (sortByOrder l) l := by
  have := sortByOrder_foldl_perm l []
  simpa [sortByOrder] using this

theorem insertByOrder_pairwise (a : MwEntry) (l : List MwEntry)
    (h : l.Pairwise (fun x y => x.order ≤ y.order)) :
    (insertByOrder a l).Pairwise (fun x y => x.order ≤ y.order) := by
  induction l with
  | nil => simp [insertByOrder]
  | cons b l ih =>
    rw [List.pairwise_cons] at h
    rw [insertByOrder]
    split
    · rename_i hab
      refine List.Pairwise.cons ?_ (List.Pairwise.cons h.1 h.2)
      intro x hx
      rcases List.mem_cons.mp hx with rfl | hx
      · exact le_of_lt hab
      · exact le_trans (le_of_lt hab) (h.1 x hx)
    · rename_i hab
      push_neg at hab
      refine List.Pairwise.cons ?_ (ih h.2)
      intro x hx
      rcases List.mem_cons.mp ((insertByOrder_perm a l).mem_iff.mp hx) with rfl | hx
      · exact hab
      · exact h.1 x hx

theorem sortByOrder_foldl_pairwise (l acc : List MwEntry)
    (h : acc.Pairwise (fun x y => x.order ≤ y.order)) :
    (l.foldl (fun acc a => insertByOrder a acc) acc).Pairwise
      (fun x y => x.order ≤ y.order) := by
  induction l generalizing acc with
  | nil => exact h
  | cons a l ih => exact ih _ (insertByOrder_pairwise a acc h)

theorem sortByOrder_pairwise (l : List MwEntry) :
    (sortByOrder l).Pairwise (fun x y => x.order ≤ y.order) :=
  sortByOrder_foldl_pairwise l [] (List.Pairwise.nil)

theorem insertByOrder_filter (a : MwEntry) (l : List MwEntry) (k : Int)
    (h : l.Pairwise (fun x y => x.order ≤ y.order)) :
    (insertByOrder a l).filter (fun m => m.order == k)
      = if a.order == k then l.filter (fun m => m.order == k) ++ [a]
        else l.filter (fun m => m.order == k) := by
  induction l with
  | nil =>
    by_cases hk : a.order = k <;> simp [insertByOrder, List.filter_cons, hk]
  | cons b l ih =>
    rw [List.pairwise_cons] at h
    rw [insertByOrder]
    split
    · rename_i hab
      by_cases hk : a.order = k
      · have hnil : (b :: l).filter (fun m => m.order == k) = [] := by
          refine List.filter_eq_nil_iff.mpr ?_
          intro x hx
          have hbx : b.order ≤ x.order := by
            rcases List.mem_cons.mp hx with rfl | hx
            · exact le_refl _
            · exact h.1 x hx
          have : k < x.order := lt_of_lt_of_le (hk ▸ hab) hbx
          simp only [beq_iff_eq]
          omega
        rw [hnil]
        have hbk : ¬ (b.order = k) := by
          have := hk ▸ hab
          omega
        simp [List.filter_cons, hk, hbk, hnil]
      · simp only [List.filter_cons, beq_iff_eq, hk]
        simp [hk]
    · rename_i hab
      by_cases hbk : b.order = k <;> by_cases hk : a.order = k <;>
        simp [List.filter_cons, hbk, hk, ih h.2]

theorem sortByOrder_foldl_filter (l acc : List MwEntry) (k : Int)
    (h : acc.Pairwise (fun x y => x.order ≤ y.order)) :
    (l.foldl (fun acc a => insertByOrder a acc) acc).filter (fun m => m.order == k)
      = acc.filter (fun m => m.order == k) ++ l.filter (fun m => m.order == k) := by
  induction l generalizing acc with
  | nil => simp
  | cons a l ih =>
    rw [List.foldl_cons, ih (insertByOrder a acc) (insertByOrder_pairwise a acc h),
      insertByOrder_filter a acc k h]
    by_cases hk : a.order = k <;> simp [List.filter_cons, hk]

/-- Stability of the pre-middleware sort: for every order number, the
entries carrying it keep their declaration order. -/
theorem sortByOrder_stable (l : List MwEntry) (k : Int) :
    (sortByOrder l).filter (fun m => m.order == k) = l.filter (fun m => m.order == k) := by
  have := sortByOrder_foldl_filter l [] k (List.Pairwise.nil)
  simpa [sortByOrder] using this

/-! ## C1: the compiled middleware chain order -/

def c1ro : RouteOptions :=
  { validations := some [{ id := 0, body := some 1 }]
    otherHttpMiddlewares := some [{ id := 5, handler := 7, isPre := true, order := 0 }] }

/-- C1 counterexample: for a route with one body-validation spec and one
pre-flagged auxiliary middleware, the compiled chain runs the pre-flagged
middleware *before* the validation step — the claimed
validation-stage-first order does not hold. -/
theorem c1_counterexample :
    buildChain c1ro = [ChainItem.customMw 7, ChainItem.validationStep 0 1 Slot.body,
      ChainItem.handlerWrapper]
    ∧ (buildChain c1ro).indexOf (ChainItem.customMw 7)
        < (buildChain c1ro).indexOf (ChainItem.validationStep 0 1 Slot.body) := by
  decide

/-- C1 (amended): for every route the compiled chain is ordered: the
pre-flagged auxiliary middleware first (stably sorted ascending by order
number), then all validation steps, then the authentication guard when
`authenticated` is true, then the authorization guard when the permission
set is non-empty, then the remaining auxiliary middleware in declaration
order, then the handler invocation wrapper last. -/
theorem c1_chain_order (ro : RouteOptions) :
    buildChain ro =
      (sortByOrder ((ro.otherHttpMiddlewares.getD []).filter (fun item => item.isPre))).map
          (fun item => ChainItem.customMw item.handler)
        ++ buildValidationSteps (ro.validations.getD [])
        ++ (if ro.authenticated.getD false then [ChainItem.authGuard] else [])
        ++ (if (ro.permissions.getD []).isEmpty then []
            else [ChainItem.authzGuard (ro.permissions.getD [])])
        ++ ((ro.otherHttpMiddlewares.getD []).filter (fun item => !item.isPre)).map
          (fun item => ChainItem.customMw item.handler)
        ++ [ChainItem.handlerWrapper]
    ∧ (sortByOrder ((ro.otherHttpMiddlewares.getD []).filter (fun item => item.isPre))).Pairwise
        (fun x y => x.order ≤ y.order)
    ∧ List.Perm
        (sortByOrder ((ro.otherHttpMiddlewares.getD []).filter (fun item => item.isPre)))
        ((ro.otherHttpMiddlewares.getD []).filter (fun item => item.isPre))
    ∧ (∀ k : Int,
        (sortByOrder ((ro.otherHttpMiddlewares.getD []).filter (fun item => item.isPre))).filter
            (fun m => m.order == k)
          = ((ro.otherHttpMiddlewares.getD []).filter (fun item => item.isPre)).filter
            (fun m => m.order == k)) := by
  refine ⟨?_, sortByOrder_pairwise _, sortByOrder_perm _, fun k => sortByOrder_stable _ k⟩
  simp [buildChain, List.append_assoc]

/-! ## C4: handler-argument marshaling -/

theorem argMapGet_set (m : ArgMap) (k i : Nat) (v : Arg) :
    argMapGet (argMapSet m k v) i = if i = k then some v else argMapGet m i := by
  induction m with
  | nil =>
    by_cases h : i = k
    · subst h
      simp [argMapSet, argMapGet]
    · have hki : ¬ (k = i) := fun hh => h hh.symm
      simp [argMapSet, argMapGet, h, hki]
  | cons p m ih =>
    rw [argMapSet]
    by_cases hp : p.1 = k
    · rw [if_pos hp]
      by_cases h : i = k
      · subst h
        simp [argMapGet]
      · have hki : ¬ (k = i) := fun hh => h hh.symm
        have hpi : ¬ (p.1 = i) := by
          rw [hp]
          exact hki
        simp [argMapGet, h, hki, hpi]
    · rw [if_neg hp]
      by_cases hpi : p.1 = i
      · have hik : ¬ (i = k) := fun hh => hp (hh ▸ hpi)
        simp [argMapGet, hpi, hik]
      · simp [argMapGet, hpi, ih]

theorem argMapGet_setIf (m : ArgMap) (o : Option Nat) (v : Arg) (i : Nat) :
    argMapGet (argMapSetIf m o v) i = if o = some i then some v else argMapGet m i := by
  cases o with
  | none => simp [argMapSetIf]
  | some k =>
    rw [argMapSetIf, argMapGet_set]
    by_cases h : i = k
    · subst h
      simp
    · have hki : ¬ (k = i) := fun hh => h hh.symm
      simp [h, hki]

theorem foldl_max_pull (l : List Nat) (a b : Nat) :
    l.foldl max (max a b) = max (l.foldl max a) b := by
  induction l generalizing a with
  | nil => rfl
  | cons c l ih =>
    rw [List.foldl_cons, List.foldl_cons, Max.right_comm, ih]

theorem foldl_max_init (l : List Nat) (a : Nat) :
    l.foldl max a = max a (l.foldl max 0) := by
  have h := foldl_max_pull l 0 a
  rw [Nat.zero_max] at h
  rw [h, max_comm]

theorem argMapSet_keys (m : ArgMap) (k : Nat) (v : Arg) :
    (argMapSet m k v).map (fun p => p.1)
      = if k ∈ m.map (fun p => p.1) then m.map (fun p => p.1)
        else m.map (fun p => p.1) ++ [k] := by
  induction m with
  | nil => simp [argMapSet]
  | cons p m ih =>
    rw [argMapSet]
    by_cases hp : p.1 = k
    · simp [hp]
    · rw [if_neg hp, List.map_cons, ih, List.map_cons]
      have hkp : ¬ (k = p.1) := fun hh => hp hh.symm
      by_cases hk : k ∈ m.map (fun p => p.1)
      · rw [if_pos hk, if_pos (List.mem_cons.mpr (Or.inr hk))]
      · rw [if_neg hk]
        have hnotc : ¬ (k ∈ p.1 :: m.map (fun p => p.1)) := by
          intro hmem
          rcases List.mem_cons.mp hmem with h1 | h1
          · exact hkp h1
          · exact hk h1
        rw [if_neg hnotc, List.cons_append]

theorem mem_foldl_max_le (l : List Nat) (x : Nat) (h : x ∈ l) :
    x ≤ l.foldl max 0 := by
  induction l with
  | nil => cases h
  | cons c l ih =>
    rw [List.foldl_cons, foldl_max_init]
    rcases List.mem_cons.mp h with rfl | h
    · exact le_trans (le_max_right 0 x) (le_max_left _ _)
    · exact le_trans (ih h) (le_max_right _ _)

theorem argMapMaxKey_set (m : ArgMap) (k : Nat) (v : Arg) :
    argMapMaxKey (argMapSet m k v) = max (argMapMaxKey m) k := by
  rw [argMapMaxKey, argMapMaxKey, argMapSet_keys]
  by_cases hk : k ∈ m.map (fun p => p.1)
  · rw [if_pos hk]
    exact (max_eq_left (mem_foldl_max_le _ k hk)).symm
  · rw [if_neg hk, List.foldl_append]
    rfl

theorem argMapMaxKey_setIf (m : ArgMap) (o : Option Nat) (v : Arg) :
    argMapMaxKey (argMapSetIf m o v)
      = (match o with
         | some k => max (argMapMaxKey m) k
         | none => argMapMaxKey m) := by
  cases o with
  | none => rfl
  | some k => exact argMapMaxKey_set m k v

theorem argMapSet_ne_nil (m : ArgMap) (k : Nat) (v : Arg) : argMapSet m k v ≠ [] := by
  cases m with
  | nil => simp [argMapSet]
  | cons p m =>
    rw [argMapSet]
    split <;> simp

theorem argMapSetIf_eq_nil (m : ArgMap) (o : Option Nat) (v : Arg) :
    argMapSetIf m o v = [] ↔ m = [] ∧ o = none := by
  cases o with
  | none => simp [argMapSetIf]
  | some k => simp [argMapSetIf, argMapSet_ne_nil]

/-- The value the wrapper ends up placing at position `i`, as an optional
map entry: the later `argMap.set` wins on an index collision, so `params`
has the highest precedence and `req` the lowest. -/
def lastWinsOpt (idx : ParamIndices) (r : Request) (i : Nat) : Option Arg :=
  if idx.params = some i then some (.value (r.validatedParams.getD r.params))
  else if idx.query = some i then some (.value (r.validatedQuery.getD r.query))
  else if idx.body = some i then some (.value (r.validatedBody.getD r.body))
  else if idx.next = some i then some .nextObj
  else if idx.res = some i then some .resObj
  else if idx.req = some i then some .reqObj
  else none

/-- The value the wrapper ends up placing at position `i` of the argument
array: as `lastWinsOpt`, with undeclared positions left undefined.  This
is the specification-side description of the marshaling. -/
def lastWinsArg (idx : ParamIndices) (r : Request) (i : Nat) : Arg :=
  if idx.params = some i then .value (r.validatedParams.getD r.params)
  else if idx.query = some i then .value (r.validatedQuery.getD r.query)
  else if idx.body = some i then .value (r.validatedBody.getD r.body)
  else if idx.next = some i then .nextObj
  else if idx.res = some i then .resObj
  else if idx.req = some i then .reqObj
  else .undef

theorem lastWinsOpt_getD (idx : ParamIndices) (r : Request) (i : Nat) :
    (lastWinsOpt idx r i).getD .undef = lastWinsArg idx r i := by
  rw [lastWinsOpt, lastWinsArg]
  split_ifs <;> rfl

/-- The argument indices the wrapper actually consults (the `headers`
entry is not among them). -/
def declaredIdxs (idx : ParamIndices) : List Nat :=
  [idx.req, idx.res, idx.next, idx.body, idx.query, idx.params].filterMap id

theorem declaredIdxs_eq_nil (idx : ParamIndices) :
    declaredIdxs idx = [] ↔
      idx.req = none ∧ idx.res = none ∧ idx.next = none ∧ idx.body = none
        ∧ idx.query = none ∧ idx.params = none := by
  rcases idx with ⟨o1, o2, o3, o4, o5, o6, o7⟩
  cases o1 <;> cases o2 <;> cases o3 <;> cases o4 <;> cases o5 <;> cases o6 <;>
    simp [declaredIdxs]

/-- The specification-side argument array: the default three-argument
call when no consulted slot is declared, otherwise one position per index
up to the maximum declared one, each filled by `lastWinsArg`. -/
def argsSpec (idx : ParamIndices) (r : Request) : List Arg :=
  if declaredIdxs idx = [] then [.reqObj, .resObj, .nextObj]
  else (List.range ((declaredIdxs idx).foldl max 0 + 1)).map (lastWinsArg idx r)

theorem filterMap_id_foldl_max (os : List (Option Nat)) (a : Nat) :
    (os.filterMap id).foldl max a
      = os.foldl (fun acc o =>
          match o with
          | some k => max acc k
          | none => acc) a := by
  induction os generalizing a with
  | nil => rfl
  | cons o os ih =>
    cases o <;> simp [List.filterMap_cons, ih]

def c4idx : ParamIndices := { body := some 0, headers := some 5 }

def c4req : Request := { body := 10 }

/-- C4 counterexample: a route declaring `body` at index 0 and `headers`
at index 5 gets a one-element argument array — the declared `headers`
index neither receives a value nor contributes to the array length, so
the claimed treatment of the `headers` slot fails. -/
theorem c4_counterexample :
    buildArgs c4idx c4req = [Arg.value 10]
    ∧ ¬ ((buildArgs c4idx c4req).length = 5 + 1) := by
  decide

/-- C4 (amended): the handler wrapper builds a positional argument array
of length (maximum declared index + 1) over the `req`/`res`/`next`/
`body`/`query`/`params` slots only, defaulting to the three-argument
request/response/next call when none of those slots is declared; each
declared index receives the live request-cycle object or the
validated-else-raw slot value per `lastWinsArg` (a later-populated slot
wins on index collisions), and a declared `headers` index is ignored
entirely. -/
theorem c4_args_spec (idx : ParamIndices) (r : Request) :
    buildArgs idx r = argsSpec idx r
    ∧ (∀ h, buildArgs { idx with headers := h } r = buildArgs idx r) := by
  constructor
  · have hget : ∀ i,
        argMapGet (argMapSetIf (argMapSetIf (argMapSetIf (argMapSetIf (argMapSetIf
            (argMapSetIf [] idx.req .reqObj) idx.res .resObj) idx.next .nextObj)
            idx.body (.value (r.validatedBody.getD r.body)))
            idx.query (.value (r.validatedQuery.getD r.query)))
            idx.params (.value (r.validatedParams.getD r.params))) i
          = lastWinsOpt idx r i := by
      intro i
      rw [argMapGet_setIf, argMapGet_setIf, argMapGet_setIf, argMapGet_setIf,
        argMapGet_setIf, argMapGet_setIf]
      rfl
    have hnil :
        (argMapSetIf (argMapSetIf (argMapSetIf (argMapSetIf (argMapSetIf
            (argMapSetIf [] idx.req .reqObj) idx.res .resObj) idx.next .nextObj)
            idx.body (.value (r.validatedBody.getD r.body)))
            idx.query (.value (r.validatedQuery.getD r.query)))
            idx.params (.value (r.validatedParams.getD r.params))) = []
          ↔ declaredIdxs idx = [] := by
      rw [argMapSetIf_eq_nil, argMapSetIf_eq_nil, argMapSetIf_eq_nil,
        argMapSetIf_eq_nil, argMapSetIf_eq_nil, argMapSetIf_eq_nil,
        declaredIdxs_eq_nil]
      constructor
      · rintro ⟨⟨⟨⟨⟨⟨-, h1⟩, h2⟩, h3⟩, h4⟩, h5⟩, h6⟩
        exact ⟨h1, h2, h3, h4, h5, h6⟩
      · rintro ⟨h1, h2, h3, h4, h5, h6⟩
        exact ⟨⟨⟨⟨⟨⟨rfl, h1⟩, h2⟩, h3⟩, h4⟩, h5⟩, h6⟩
    have hmax :
        argMapMaxKey (argMapSetIf (argMapSetIf (argMapSetIf (argMapSetIf (argMapSetIf
            (argMapSetIf [] idx.req .reqObj) idx.res .resObj) idx.next .nextObj)
            idx.body (.value (r.validatedBody.getD r.body)))
            idx.query (.value (r.validatedQuery.getD r.query)))
            idx.params (.value (r.validatedParams.getD r.params)))
          = (declaredIdxs idx).foldl max 0 := by
      rw [argMapMaxKey_setIf, argMapMaxKey_setIf, argMapMaxKey_setIf, argMapMaxKey_setIf,
        argMapMaxKey_setIf, argMapMaxKey_setIf]
      simp only [declaredIdxs]
      rw [filterMap_id_foldl_max]
      rfl
    simp only [buildArgs, argsSpec]
    by_cases hd : declaredIdxs idx = []
    · rw [if_pos hd]
      rw [hnil.mpr hd]
      simp
    · rw [if_neg hd]
      have hm := fun h => hd (hnil.mp h)
      rw [if_pos (by
        have := List.length_pos.mpr hm
        omega)]
      rw [hmax]
      refine List.map_congr_left ?_
      intro i _
      rw [hget i, lastWinsOpt_getD]
  · intro h
    rfl

/-! ## C6: where the validated instance is written -/

def c6adapter : ValidationAdapter := fun _ _ => .ok (9, [])

def c6req : Request := { body := 5 }

def c6after : Request := { c6req with body := 9 }

/-- C6 counterexample: a successful body validation overwrites `req.body`
in place with the transformed instance — the original raw value is gone
and no separate result location is used, refuting the claimed
non-colliding write for the `body` slot. -/
theorem c6_counterexample :
    validationMiddlewareRun c6adapter 1 Slot.body c6req = MwOutcome.proceed c6after
    ∧ c6after.body ≠ c6req.body
    ∧ c6after.validatedBody = none := by
  decide

/-- C6 (amended): on success the middleware proceeds with the request
written by `writeValidated`; only the `headers` slot uses a non-colliding
result location (`validatedHeaders`, with `req.headers` left unchanged),
while for `body`, `query`, and `params` the transformed instance replaces
the raw slot value in place. -/
theorem c6_success_write (adapter : ValidationAdapter) (classId : Nat) (t : Slot)
    (r : Request) (inst : Nat)
    (h : adapter classId (r.sourceOf t) = Except.ok (inst, [])) :
    validationMiddlewareRun adapter classId t r
      = MwOutcome.proceed (writeValidated r t inst)
    ∧ (writeValidated r Slot.headers inst).headers = r.headers
    ∧ (writeValidated r Slot.headers inst).validatedHeaders = some inst
    ∧ (writeValidated r Slot.body inst).body = inst
    ∧ (writeValidated r Slot.query inst).query = inst
    ∧ (writeValidated r Slot.params inst).params = inst := by
  refine ⟨?_, rfl, rfl, rfl, rfl, rfl⟩
  simp [validationMiddlewareRun, h]

/-- C6 witness: the amended write behavior at the `headers` slot of a
concrete request. -/
theorem c6_success_write_witness :
    validationMiddlewareRun c6adapter 1 Slot.headers c6req
      = MwOutcome.proceed { c6req with validatedHeaders := some 9 } :=
  (c6_success_write c6adapter 1 Slot.headers c6req 9 rfl).1

/-! ## C7: validation failure handling -/

/-- C7: a rejected slot value yields a 400 response with the not-ok flag,
the standard message and the non-empty field-error list, and the chain
does not proceed; an adapter crash likewise yields a 400 (never a 500)
with the generic failure message. -/
theorem c7_validation_failure (adapter : ValidationAdapter) (classId : Nat) (t : Slot)
    (r : Request) :
    (∀ inst errs, adapter classId (r.sourceOf t) = Except.ok (inst, errs) → errs ≠ [] →
      validationMiddlewareRun adapter classId t r
        = MwOutcome.respond 400
            { ok := false, message := "Validation error", errors := some errs }
      ∧ ∀ r2, validationMiddlewareRun adapter classId t r ≠ MwOutcome.proceed r2)
    ∧ (∀ msg, adapter classId (r.sourceOf t) = Except.error msg →
      validationMiddlewareRun adapter classId t r
        = MwOutcome.respond 400
            { ok := false, message := "Validation middleware failed", error := some msg }
      ∧ ∀ r2, validationMiddlewareRun adapter classId t r ≠ MwOutcome.proceed r2) := by
  constructor
  · intro inst errs h hne
    have heq : validationMiddlewareRun adapter classId t r
        = MwOutcome.respond 400
            { ok := false, message := "Validation error", errors := some errs } := by
      simp [validationMiddlewareRun, h, hne]
    refine ⟨heq, ?_⟩
    intro r2
    rw [heq]
    simp
  · intro msg h
    have heq : validationMiddlewareRun adapter classId t r
        = MwOutcome.respond 400
            { ok := false, message := "Validation middleware failed", error := some msg } := by
      simp [validationMiddlewareRun, h]
    refine ⟨heq, ?_⟩
    intro r2
    rw [heq]
    simp

def c7adapterRej : ValidationAdapter :=
  fun _ _ => .ok (9, [{ property := "title", constraints := ["required"] }])

def c7adapterCrash : ValidationAdapter := fun _ _ => .error "boom"

def c7req : Request := { body := 5 }

/-- C7 witness: both failure paths on concrete adapters. -/
theorem c7_validation_failure_witness :
    validationMiddlewareRun c7adapterRej 1 Slot.body c7req
      = MwOutcome.respond 400
          { ok := false, message := "Validation error",
            errors := some [{ property := "title", constraints := ["required"] }] }
    ∧ validationMiddlewareRun c7adapterCrash 1 Slot.body c7req
      = MwOutcome.respond 400
          { ok := false, message := "Validation middleware failed", error := some "boom" } :=
  ⟨((c7_validation_failure c7adapterRej 1 Slot.body c7req).1 9
      [{ property := "title", constraints := ["required"] }] rfl (by decide)).1,
   ((c7_validation_failure c7adapterCrash 1 Slot.body c7req).2 "boom" rfl).1⟩

/-! ## C8: the authorization guard -/

/-- C8: the authorization guard proceeds exactly when the required set is
empty or at least one required permission is in the request's current
permission set — the union of the permissions attached to the request and
those parsed from the `x-user-permissions` header — and otherwise throws
a 403 Forbidden. -/
theorem c8_authorization (required : List String) (r : Request) :
    (authorizedMiddleware required r = MwOutcome.proceed r ↔
      required = [] ∨ ∃ p ∈ required, p ∈ currentPermissions r)
    ∧ (¬ (required = [] ∨ ∃ p ∈ required, p ∈ currentPermissions r) →
      authorizedMiddleware required r = MwOutcome.threw 403 "Forbidden")
    ∧ (∀ p, p ∈ currentPermissions r ↔
      p ∈ (r.user.map (fun u => u.permissions)).getD []
        ∨ p ∈ parsePermsHeader (getHeader r "x-user-permissions")) := by
  have hcur : ∀ p, p ∈ currentPermissions r ↔
      p ∈ (r.user.map (fun u => u.permissions)).getD []
        ∨ p ∈ parsePermsHeader (getHeader r "x-user-permissions") := by
    intro p
    simp [currentPermissions, mem_arrayUnify]
  have hok : (required.isEmpty
      || required.any (fun perm => (currentPermissions r).contains perm)) = true
      ↔ (required = [] ∨ ∃ p ∈ required, p ∈ currentPermissions r) := by
    simp [List.isEmpty_iff]
  refine ⟨?_, ?_, hcur⟩
  · by_cases h : required = [] ∨ ∃ p ∈ required, p ∈ currentPermissions r
    · simp only [authorizedMiddleware]
      rw [if_pos (hok.mpr h)]
      simp [h]
    · simp only [authorizedMiddleware]
      rw [if_neg (fun hc => h (hok.mp hc))]
      simp [h]
  · intro h
    simp only [authorizedMiddleware]
    rw [if_neg (fun hc => h (hok.mp hc))]

def c8req : Request := { headers := [("x-user-permissions", "admin")] }

/-- C8 witness: a matching and a non-matching required set on a concrete
request. -/
theorem c8_authorization_witness :
    authorizedMiddleware ["admin"] c8req = MwOutcome.proceed c8req
    ∧ authorizedMiddleware ["root"] c8req = MwOutcome.threw 403 "Forbidden" :=
  ⟨(c8_authorization ["admin"] c8req).1.mpr (Or.inr ⟨"admin", by decide, by decide⟩),
   (c8_authorization ["root"] c8req).2.1 (by decide)⟩

/-! ## C9: unauthenticated requests never reach the handler -/

/-- Chain elements that can only pass the request along (possibly
mutating it) or terminate with a response of their own: the stages that
precede the authentication guard in a compiled chain. -/
def passthroughItem (item : ChainItem) : Prop :=
  (∃ h, item = ChainItem.customMw h) ∨ ∃ sid c t, item = ChainItem.validationStep sid c t

theorem runChain_cons_custom (env : Env) (h : Nat) (xs : List ChainItem) (r : Request) :
    runChain env (ChainItem.customMw h :: xs) r =
      match env.custom h r with
      | .proceed r2 => runChain env xs r2
      | .respond s b => .handled s b
      | .threw s m => .errored s m := rfl

theorem runChain_cons_validation (env : Env) (sid c : Nat) (t : Slot)
    (xs : List ChainItem) (r : Request) :
    runChain env (ChainItem.validationStep sid c t :: xs) r =
      match validationMiddlewareRun env.adapter c t r with
      | .proceed r2 => runChain env xs r2
      | .respond s b => .handled s b
      | .threw s m => .errored s m := rfl

theorem runChain_cons_auth (env : Env) (xs : List ChainItem) (r : Request) :
    runChain env (ChainItem.authGuard :: xs) r =
      match authenticatedMiddleware r with
      | .proceed r2 => runChain env xs r2
      | .respond s b => .handled s b
      | .threw s m => .errored s m := rfl

theorem writeValidated_headers_eq (r : Request) (t : Slot) (inst : Nat) :
    (writeValidated r t inst).headers = r.headers := by
  cases t <;> rfl

theorem isAuthHeaderSatisfied_congr (r r2 : Request) (h : r2.headers = r.headers) :
    isAuthHeaderSatisfied r2 = isAuthHeaderSatisfied r := by
  simp [isAuthHeaderSatisfied, getHeader, h]

/-- Running the stages before the authentication guard: when every custom
middleware passes the request through unchanged and every validation
succeeds, the walk reaches the tail of the chain with a request whose
headers are untouched. -/
theorem runChain_passthrough (env : Env) (l : List ChainItem) (rest : List ChainItem)
    (r : Request)
    (hitems : ∀ item ∈ l, passthroughItem item)
    (hcustom : ∀ h r2, env.custom h r2 = MwOutcome.proceed r2)
    (hadapter : ∀ c s, ∃ i, env.adapter c s = Except.ok (i, [])) :
    ∃ r2, runChain env (l ++ rest) r = runChain env rest r2 ∧ r2.headers = r.headers := by
  induction l generalizing r with
  | nil => exact ⟨r, rfl, rfl⟩
  | cons item l ih =>
    have hpass := hitems item (List.mem_cons_self item l)
    have hrest : ∀ i2 ∈ l, passthroughItem i2 :=
      fun i2 hi2 => hitems i2 (List.mem_cons_of_mem item hi2)
    rcases hpass with ⟨h, rfl⟩ | ⟨sid, c, t, rfl⟩
    · rw [List.cons_append, runChain_cons_custom, hcustom h r]
      exact ih r hrest
    · obtain ⟨i, hok⟩ := hadapter c (r.sourceOf t)
      have hvrun : validationMiddlewareRun env.adapter c t r
          = MwOutcome.proceed (writeValidated r t i) := by
        simp [validationMiddlewareRun, hok]
      rw [List.cons_append, runChain_cons_validation, hvrun]
      obtain ⟨r2, heq, hh⟩ := ih (writeValidated r t i) hrest
      exact ⟨r2, heq, hh.trans (writeValidated_headers_eq r t i)⟩

/-- C9: for a route compiled with `authenticated = true`, a request whose
`x-authenticated` identity marker is not satisfied makes the
authentication guard throw a 401 Unauthorized, and the chain never
reaches the route handler — provided the route's own auxiliary middleware
pass the request through and its validations accept it (stages that
would otherwise terminate the chain even earlier). -/
theorem c9_unauthenticated (ro : RouteOptions) (env : Env) (r : Request)
    (hauth : ro.authenticated = some true)
    (hcustom : ∀ h r2, env.custom h r2 = MwOutcome.proceed r2)
    (hadapter : ∀ c s, ∃ i, env.adapter c s = Except.ok (i, []))
    (hmarker : isAuthHeaderSatisfied r = false) :
    runChain env (buildChain ro) r = ChainResult.errored 401 "Unauthorized"
    ∧ ∀ r2, runChain env (buildChain ro) r ≠ ChainResult.reachedHandler r2 := by
  have hb : buildChain ro
      = ((sortByOrder ((ro.otherHttpMiddlewares.getD []).filter (fun item => item.isPre))).map
          (fun item => ChainItem.customMw item.handler)
        ++ buildValidationSteps (ro.validations.getD []))
        ++ (ChainItem.authGuard ::
          ((if (ro.permissions.getD []).isEmpty then []
            else [ChainItem.authzGuard (ro.permissions.getD [])])
          ++ (((ro.otherHttpMiddlewares.getD []).filter (fun item => !item.isPre)).map
            (fun item => ChainItem.customMw item.handler)
          ++ [ChainItem.handlerWrapper]))) := by
    simp [buildChain, hauth, List.append_assoc]
  have hitems : ∀ item ∈
      ((sortByOrder ((ro.otherHttpMiddlewares.getD []).filter (fun item => item.isPre))).map
          (fun item => ChainItem.customMw item.handler)
        ++ buildValidationSteps (ro.validations.getD [])), passthroughItem item := by
    intro item hmem
    rcases List.mem_append.mp hmem with hmem | hmem
    · obtain ⟨e, _, rfl⟩ := List.mem_map.mp hmem
      exact Or.inl ⟨e.handler, rfl⟩
    · have hflat : buildValidationSteps (ro.validations.getD [])
          = (ro.validations.getD []).flatMap specSteps :=
        buildValidationSteps_foldl (ro.validations.getD []) []
      rw [hflat] at hmem
      obtain ⟨v, _, hv⟩ := List.mem_flatMap.mp hmem
      obtain ⟨t, _, ht⟩ := List.mem_filterMap.mp hv
      obtain ⟨c, _, rfl⟩ := Option.map_eq_some.mp ht
      exact Or.inr ⟨v.id, c, t, rfl⟩
  obtain ⟨r2, hrun, hh⟩ := runChain_passthrough env _ _ r hitems hcustom hadapter
  have hm2 : isAuthHeaderSatisfied r2 = false :=
    (isAuthHeaderSatisfied_congr r r2 hh).trans hmarker
  have hga : authenticatedMiddleware r2 = MwOutcome.threw 401 "Unauthorized" := by
    simp [authenticatedMiddleware, hm2]
  have hfinal : runChain env (buildChain ro) r = ChainResult.errored 401 "Unauthorized" := by
    rw [hb, hrun, runChain_cons_auth, hga]
  refine ⟨hfinal, ?_⟩
  intro r2 hcontra
  rw [hfinal] at hcontra
  cases hcontra

def c9ro : RouteOptions := { authenticated := some true }

def c9env : Env :=
  { custom := fun _ r2 => .proceed r2, adapter := fun _ _ => .ok (0, []) }

def c9req : Request := {}

/-- C9 witness: a concrete authenticated-only route, a trivial
environment, and a request with no identity header. -/
theorem c9_unauthenticated_witness :
    runChain c9env (buildChain c9ro) c9req = ChainResult.errored 401 "Unauthorized" :=
  (c9_unauthenticated c9ro c9env c9req rfl (fun _ _ => rfl)
    (fun _ _ => ⟨0, rfl⟩) (by decide)).1

/-! ## C10: the mutation performed by the authentication guard -/

/-- C10: every request that passes the authentication guard is mutated by
the guard itself before proceeding: `authenticated` is set to `true` and
a `user` object is attached whose permission list is parsed from the
comma-separated `x-user-permissions` header (entries trimmed, empty
entries dropped); the data slots and headers are untouched, and every
header-derived permission is visible to a later authorization guard
through `currentPermissions`. -/
theorem c10_auth_attach (r r2 : Request)
    (h : authenticatedMiddleware r = MwOutcome.proceed r2) :
    r2.authenticated = true
    ∧ r2.user = some
        { id := if getHeader r "x-user-id" == "" then none
                else some (getHeader r "x-user-id")
          permissions := parsePermsHeader (getHeader r "x-user-permissions") }
    ∧ r2.headers = r.headers
    ∧ r2.body = r.body ∧ r2.query = r.query ∧ r2.params = r.params
    ∧ (∀ p ∈ parsePermsHeader (getHeader r "x-user-permissions"),
        p ∈ currentPermissions r2)
    ∧ (∀ p ∈ parsePermsHeader (getHeader r "x-user-permissions"), p ≠ "") := by
  by_cases hm : isAuthHeaderSatisfied r = true
  · have heq : authenticatedMiddleware r = MwOutcome.proceed { r with
        authenticated := true
        user := some
          { id := if getHeader r "x-user-id" == "" then none
                  else some (getHeader r "x-user-id")
            permissions := parsePermsHeader (getHeader r "x-user-permissions") } } := by
      simp [authenticatedMiddleware, hm]
    rw [heq] at h
    have h2 := MwOutcome.proceed.inj h
    subst h2
    refine ⟨rfl, rfl, rfl, rfl, rfl, rfl, ?_, ?_⟩
    · intro p hp
      simp only [currentPermissions, mem_arrayUnify, List.mem_append]
      exact Or.inl hp
    · intro p hp
      simp only [parsePermsHeader, List.mem_filter, bne_iff_ne, ne_eq] at hp
      exact hp.2
  · have hm2 : isAuthHeaderSatisfied r = false := by
      revert hm
      cases isAuthHeaderSatisfied r <;> simp
    rw [show authenticatedMiddleware r = MwOutcome.threw 401 "Unauthorized" by
      simp [authenticatedMiddleware, hm2]] at h
    cases h

def c10req : Request :=
  { headers := [("x-authenticated", "true"), ("x-user-permissions", "admin, ,editor")] }

def c10after : Request :=
  { c10req with
    authenticated := true
    user := some { id := none, permissions := ["admin", "editor"] } }

/-- C10 witness: on a concrete request the guard attaches the trimmed,
empty-dropped header permissions and the authorization guard can see
them. -/
theorem c10_auth_attach_witness :
    c10after.authenticated = true ∧ "admin" ∈ currentPermissions c10after := by
  have h := c10_auth_attach c10req c10after (by decide)
  exact ⟨h.1, h.2.2.2.2.2.2.1 "admin" (by decide)⟩

end Mini2Core